import Mathlib

/-!
Verification of the RoadMapGenerator backend against its specification.

The development shallowly embeds the JavaScript sources:
- `server/index.js` (the express server: model-fallback generate loop,
  JSON extraction, flat-file roadmap store) — namespace `Server`;
- `api/_common.js` and the serverless handlers (generate, save, get/delete,
  storage) — namespace `ApiGen` for the serverless generate handler and
  top-level definitions for the shared pieces.

`JSON.parse` is a platform builtin; it is modelled below by `jsonParse`,
a total fuel-based parser of the RFC 8259 grammar.  Numbers are kept exactly
as `mantissa × 10 ^ exp10` (no float rounding); `\uXXXX` escapes for
surrogate code points fall back to `Char.ofNat`'s default character.
-/

/-- A JSON number, kept exact as `mantissa × 10 ^ exp10`. -/
structure JsonNum where
  mantissa : Int
  exp10 : Int
deriving DecidableEq

/-- A JSON value as produced by `JSON.parse`. -/
inductive JValue where
  | null
  | bool (b : Bool)
  | num (n : JsonNum)
  | str (s : String)
  | arr (elems : List JValue)
  | obj (fields : List (String × JValue))

/-- JavaScript truthiness of a `JSON.parse` result: `null`, `false`, `0` and
`""` are falsy; every object and array (even empty) is truthy. -/
def jsTruthy : JValue → Bool
  | .null => false
  | .bool b => b
  | .num n => if n.mantissa = 0 then false else true
  | .str s => if s = "" then false else true
  | .arr _ => true
  | .obj _ => true

/-- JSON whitespace (RFC 8259): space, tab, line feed, carriage return. -/
def isJsonWs (c : Char) : Bool := c = ' ' || c = '\t' || c = '\n' || c = '\r'

def skipJsonWs (l : List Char) : List Char := l.dropWhile isJsonWs

def isDigitCh (c : Char) : Bool := 48 ≤ c.toNat && c.toNat ≤ 57

def hexDigitVal (c : Char) : Option Nat :=
  let n := c.toNat
  if 48 ≤ n ∧ n ≤ 57 then some (n - 48)
  else if 97 ≤ n ∧ n ≤ 102 then some (n - 87)
  else if 65 ≤ n ∧ n ≤ 70 then some (n - 55)
  else none

/-- Longest leading run of decimal digits, and the rest. -/
def spanDigits : List Char → List Char × List Char
  | [] => ([], [])
  | c :: cs =>
    if isDigitCh c then
      let p := spanDigits cs
      (c :: p.1, p.2)
    else ([], c :: cs)

def digitsToNatAux (acc : Nat) : List Char → Nat
  | [] => acc
  | c :: cs => digitsToNatAux (10 * acc + (c.toNat - 48)) cs

/-- The value of a run of decimal digits. -/
def digitsToNat (ds : List Char) : Nat := digitsToNatAux 0 ds

/-- Consume an exact literal (used for the `null`/`true`/`false` keywords). -/
def dropExact : List Char → List Char → Option (List Char)
  | [], l => some l
  | k :: ks, c :: cs => if c = k then dropExact ks cs else none
  | _ :: _, [] => none

/-- Body of a JSON string after the opening quote: literal characters (control
characters are rejected), the short escapes, and `\uXXXX`.  On success returns
the decoded characters and the input after the closing quote. -/
def jsonStringBody : List Char → Option (List Char × List Char)
  | [] => none
  | '"' :: tl => some ([], tl)
  | '\\' :: 'u' :: q1 :: q2 :: q3 :: q4 :: tl =>
    match hexDigitVal q1, hexDigitVal q2, hexDigitVal q3, hexDigitVal q4 with
    | some w1, some w2, some w3, some w4 =>
      (jsonStringBody tl).map fun p =>
        (Char.ofNat (w1 * 4096 + w2 * 256 + w3 * 16 + w4) :: p.1, p.2)
    | _, _, _, _ => none
  | '\\' :: e :: rest =>
    let dec : Option Char :=
      if e = '"' then some '"'
      else if e = '\\' then some '\\'
      else if e = '/' then some '/'
      else if e = 'b' then some (Char.ofNat 8)
      else if e = 'f' then some (Char.ofNat 12)
      else if e = 'n' then some '\n'
      else if e = 'r' then some '\r'
      else if e = 't' then some '\t'
      else none
    match dec with
    | some ch => (jsonStringBody rest).map fun p => (ch :: p.1, p.2)
    | none => none
  | c :: rest =>
    if c.toNat < 32 then none
    else (jsonStringBody rest).map fun p => (c :: p.1, p.2)

/-- A JSON number literal: `-?(0|[1-9][0-9]*)(\.[0-9]+)?([eE][+-]?[0-9]+)?`.
A bare trailing `.` or `e` is left unconsumed (the caller then rejects the
input, as `JSON.parse` does). -/
def jsonNumber (l : List Char) : Option (JsonNum × List Char) :=
  let sgn : Int × List Char := match l with
    | '-' :: r => (-1, r)
    | _ => (1, l)
  match sgn.2 with
  | [] => none
  | c :: r =>
    if !isDigitCh c then none
    else
      let ip : List Char × List Char :=
        if c = '0' then ([c], r)
        else
          let p := spanDigits r
          (c :: p.1, p.2)
      let fp : List Char × List Char := match ip.2 with
        | '.' :: r2 =>
          let p := spanDigits r2
          if p.1.isEmpty then ([], ip.2) else p
        | _ => ([], ip.2)
      let ep : Int × List Char := match fp.2 with
        | 'e' :: '+' :: r3 =>
          let p := spanDigits r3
          if p.1.isEmpty then (0, fp.2) else ((digitsToNat p.1 : Int), p.2)
        | 'E' :: '+' :: r3 =>
          let p := spanDigits r3
          if p.1.isEmpty then (0, fp.2) else ((digitsToNat p.1 : Int), p.2)
        | 'e' :: '-' :: r3 =>
          let p := spanDigits r3
          if p.1.isEmpty then (0, fp.2) else (-(digitsToNat p.1 : Int), p.2)
        | 'E' :: '-' :: r3 =>
          let p := spanDigits r3
          if p.1.isEmpty then (0, fp.2) else (-(digitsToNat p.1 : Int), p.2)
        | 'e' :: r3 =>
          let p := spanDigits r3
          if p.1.isEmpty then (0, fp.2) else ((digitsToNat p.1 : Int), p.2)
        | 'E' :: r3 =>
          let p := spanDigits r3
          if p.1.isEmpty then (0, fp.2) else ((digitsToNat p.1 : Int), p.2)
        | _ => (0, fp.2)
      some (⟨sgn.1 * (digitsToNat (ip.1 ++ fp.1) : Int), ep.1 - (fp.1.length : Int)⟩, ep.2)

mutual

/-- One JSON value at the head of the input (leading whitespace already
skipped); returns it and the rest of the input. -/
def jsonValue (fuel : Nat) (l : List Char) : Option (JValue × List Char) :=
  match fuel with
  | 0 => none
  | f + 1 =>
    match l with
    | [] => none
    | '"' :: r => (jsonStringBody r).map fun p => (.str (String.mk p.1), p.2)
    | '[' :: r =>
      match skipJsonWs r with
      | ']' :: r2 => some (.arr [], r2)
      | r1 => (jsonElems f r1).map fun p => (.arr p.1, p.2)
    | '{' :: r =>
      match skipJsonWs r with
      | '}' :: r2 => some (.obj [], r2)
      | r1 => (jsonFields f r1).map fun p => (.obj p.1, p.2)
    | c :: _ =>
      if c = 'n' then (dropExact "null".data l).map fun r => (JValue.null, r)
      else if c = 't' then (dropExact "true".data l).map fun r => (JValue.bool true, r)
      else if c = 'f' then (dropExact "false".data l).map fun r => (JValue.bool false, r)
      else if c = '-' || isDigitCh c then (jsonNumber l).map fun p => (.num p.1, p.2)
      else none

/-- One-or-more comma-separated array elements up to the closing `]`. -/
def jsonElems (fuel : Nat) (l : List Char) : Option (List JValue × List Char) :=
  match fuel with
  | 0 => none
  | f + 1 =>
    match jsonValue f (skipJsonWs l) with
    | none => none
    | some (v, r) =>
      match skipJsonWs r with
      | ',' :: r2 => (jsonElems f r2).map fun p => (v :: p.1, p.2)
      | ']' :: r2 => some ([v], r2)
      | _ => none

/-- One-or-more comma-separated object members up to the closing brace. -/
def jsonFields (fuel : Nat) (l : List Char) : Option (List (String × JValue) × List Char) :=
  match fuel with
  | 0 => none
  | f + 1 =>
    match skipJsonWs l with
    | '"' :: r =>
      match jsonStringBody r with
      | none => none
      | some (key, r1) =>
        match skipJsonWs r1 with
        | ':' :: r2 =>
          match jsonValue f (skipJsonWs r2) with
          | none => none
          | some (v, r3) =>
            match skipJsonWs r3 with
            | ',' :: r4 => (jsonFields f r4).map fun p => ((String.mk key, v) :: p.1, p.2)
            | '}' :: r4 => some ([(String.mk key, v)], r4)
            | _ => none
        | _ => none
    | _ => none

end

/-- Model of `JSON.parse`: parse a complete document, allowing surrounding
whitespace and rejecting any trailing input; `none` models a thrown
`SyntaxError`. -/
def jsonParse (s : String) : Option JValue :=
  match jsonValue (s.length + 1) (skipJsonWs s.data) with
  | some (v, rest) => if (skipJsonWs rest).isEmpty then some v else none
  | none => none

/-! ### Fenced-code-block extraction (`tryExtractJson`) -/

def backtickCh : Char := Char.ofNat 96

/-- JavaScript `\s` (modelled over the ASCII range plus NBSP and BOM). -/
def isJsWs (c : Char) : Bool :=
  c = ' ' || c = '\t' || c = '\n' || c = '\r' || c = '\x0b' || c = '\x0c' ||
  c = ' ' || c = '﻿'

/-- Does the input start with three consecutive backticks? -/
def startsTriple : List Char → Bool
  | a :: b :: c :: _ => a = backtickCh && b = backtickCh && c = backtickCh
  | _ => false

/-- Split at the first occurrence of three consecutive backticks, returning
the parts before and after them. -/
def splitTriple : List Char → Option (List Char × List Char)
  | [] => none
  | c :: cs =>
    if startsTriple (c :: cs) then some ([], cs.drop 2)
    else (splitTriple cs).map fun p => (c :: p.1, p.2)

/-- Case-insensitive prefix test (the pattern is given in lowercase). -/
def startsWithCI (pat l : List Char) : Bool :=
  match pat, l with
  | [], _ => true
  | p :: ps, c :: cs => if c.toLower = p then startsWithCI ps cs else false
  | _ :: _, [] => false

/-- The regex `/```json\s*([\s\S]*?)```/i` anchored at the current position:
when the input starts with ` ```json ` (case-insensitively), the capture is
everything after the greedy whitespace run up to the next triple backtick;
`none` when no closing fence follows. -/
def jsonFenceHere (l : List Char) : Option (List Char) :=
  if startsWithCI "```json".data l then
    (splitTriple ((l.drop 7).dropWhile isJsWs)).map (·.1)
  else none

/-- Leftmost match of the ` ```json ` fence regex over the whole input. -/
def findJsonFence : List Char → Option (List Char)
  | [] => none
  | c :: cs =>
    match jsonFenceHere (c :: cs) with
    | some i => some i
    | none => findJsonFence cs

/-- The regex `/```\s*([\s\S]*?)```/i` anchored at the current position. -/
def anyFenceHere (l : List Char) : Option (List Char) :=
  if startsTriple l then (splitTriple ((l.drop 3).dropWhile isJsWs)).map (·.1)
  else none

/-- Leftmost match of the generic fence regex over the whole input. -/
def findAnyFence : List Char → Option (List Char)
  | [] => none
  | c :: cs =>
    match anyFenceHere (c :: cs) with
    | some i => some i
    | none => findAnyFence cs

/-- `text.indexOf(c)` (as `Option` instead of `-1`). -/
def firstIdxOf (c : Char) : List Char → Option Nat
  | [] => none
  | x :: xs => if x = c then some 0 else (firstIdxOf c xs).map (· + 1)

/-- `text.lastIndexOf(c)` (as `Option` instead of `-1`). -/
def lastIdxOf (c : Char) (l : List Char) : Option Nat :=
  (firstIdxOf c l.reverse).map fun i => l.length - 1 - i

/-- The first-`{`-to-last-`}` fallback inside `tryExtractJson`: when both
braces occur and the last `}` is strictly after the first `{`, parse that
substring. -/
def braceCandidate (l : List Char) : Option JValue :=
  match firstIdxOf '{' l, lastIdxOf '}' l with
  | some first, some last =>
    if first < last then jsonParse (String.mk ((l.drop first).take (last + 1 - first)))
    else none
  | _, _ => none

/-- `tryExtractJson` from `api/_common.js` lines 16–29 (and identically
`server/index.js` lines 144–157): try the first ` ```json ` fence, else the
first generic fence; when the capture is nonempty, try to parse it, and on
any failure fall back to the brace-delimited substring.  A successful fence
parse is returned even when the value is `null` (i.e. `some JValue.null`
here), mirroring `return JSON.parse(fenceMatch[1])`. -/
def tryExtractJson (text : String) : Option JValue :=
  let l := text.data
  let fence := match findJsonFence l with
    | some i => some i
    | none => findAnyFence l
  match fence with
  | some interior =>
    if interior.isEmpty then braceCandidate l
    else
      match jsonParse (String.mk interior) with
      | some v => some v
      | none => braceCandidate l
  | none => braceCandidate l

/-! ### The generate handler's success path -/

/-- The JSON body written by a handler response, as far as the claims need:
a parsed JSON document, the `{ raw: content }` wrapper, or the
`{ error: 'Upstream error', details: ... }` wrapper. -/
inductive JBody where
  | json (v : JValue)
  | raw (s : String)
  | upstreamError (details : String)

/-- Body produced for a successful provider response with content `content`
(`server/index.js` lines 190–199, `api/generate` likewise): strict
`JSON.parse` first; then `tryExtractJson`, whose result is used only when
truthy (`if (extracted)`); otherwise `{ raw: content }`. -/
def contentBody (content : String) : JBody :=
  match jsonParse content with
  | some v => .json v
  | none =>
    match tryExtractJson content with
    | some v => if jsTruthy v then .json v else .raw content
    | none => .raw content

/-- An HTTP response as far as the claims need: status plus body. -/
structure HttpOut where
  status : Nat
  body : JBody

/-- The `res.status(200).json(...)` response for a successful provider
content string. -/
def okResponse (content : String) : HttpOut :=
  ⟨200, contentBody content⟩

/-- The fence capture considered by `tryExtractJson`: the first ` ```json `
fence match, or failing that the first generic fence match. -/
def fenceCapture (l : List Char) : Option (List Char) :=
  match findJsonFence l with
  | some i => some i
  | none => findAnyFence l

/-- The extraction chain exactly as claim C2 states it (spec wording, without
the handler's truthiness gate): strict parse, else fence-interior parse, else
brace-substring parse, else `{ raw: c }`. -/
def claimedExtract (c : String) : JBody :=
  match jsonParse c with
  | some v => .json v
  | none =>
    match (fenceCapture c.data).bind fun i => jsonParse (String.mk i) with
    | some v => .json v
    | none =>
      match braceCandidate c.data with
      | some v => .json v
      | none => .raw c

/-- The amended extraction chain (spec wording amended by the truthiness
gate): strict parse; else the candidate value is the selected fence capture's
parse, falling back to the brace-substring parse; a candidate is returned
only when JavaScript-truthy, otherwise `{ raw: c }`. -/
def claimAmendedExtract (c : String) : JBody :=
  match jsonParse c with
  | some v => .json v
  | none =>
    let candidate : Option JValue :=
      match fenceCapture c.data with
      | some i =>
        match jsonParse (String.mk i) with
        | some v => some v
        | none => braceCandidate c.data
      | none => braceCandidate c.data
    match candidate with
    | some v => if jsTruthy v then .json v else .raw c
    | none => .raw c

/-! ### The model-fallback loop

`server/index.js` lines 185–207 and `api/generate` lines 36–55 run the same
loop: for each candidate model, up to `min(MAX_RETRIES, RETRY_DELAYS.length)`
attempts, waiting `RETRY_DELAYS[attempt]` before every attempt but the first;
an OK response returns immediately; a 429 or 404 stops the attempts for the
candidate; any failure records the error body text in `lastErrorText`.

The provider is modelled as a function from candidate model and attempt
index to the response of that call; the run is recorded as a trace of wait
and call events. -/

def MAX_RETRIES : Nat := 3

def RETRY_DELAYS : List Nat := [1000, 3000, 5000]

/-- `Math.min(MAX_RETRIES, RETRY_DELAYS.length)`, the per-candidate attempt
bound of the loop. -/
def attemptCap : Nat := min MAX_RETRIES RETRY_DELAYS.length

/-- A non-OK provider response: HTTP status and error body text. -/
structure ErrInfo where
  status : Nat
  body : String
deriving DecidableEq

/-- A provider response: OK with a content string, or an error. -/
inductive Resp where
  | ok (content : String)
  | err (e : ErrInfo)
deriving DecidableEq

/-- An observable step of the fallback loop: a backoff wait or a provider
call (at a candidate model and attempt index, with its response). -/
inductive Event where
  | wait (ms : Nat)
  | call (model : String) (attempt : Nat) (r : Resp)
deriving DecidableEq

/-- The inner `for (let attempt = 0; ...)` loop for one candidate, from
attempt index `a` with `remaining` iterations left (`remaining = attemptCap -
a` at entry): returns the event trace, the successful content (if any), and
the final `lastErrorText`. -/
def runAttempts (provider : String → Nat → Resp) (c : String) :
    Nat → Nat → String → List Event × Option String × String
  | _, 0, lastErr => ([], none, lastErr)
  | a, r + 1, lastErr =>
    let pre : List Event := if a > 0 then [Event.wait (RETRY_DELAYS.getD a 0)] else []
    match provider c a with
    | .ok content => (pre ++ [Event.call c a (.ok content)], some content, lastErr)
    | .err e =>
      if e.status = 429 ∨ e.status = 404 then
        (pre ++ [Event.call c a (.err e)], none, e.body)
      else
        let rest := runAttempts provider c (a + 1) r e.body
        (pre ++ [Event.call c a (.err e)] ++ rest.1, rest.2)

/-- The outer `for (const candidate of preferred)` loop, threading
`lastErrorText` (initially `''` in the handler). -/
def runCandidates (provider : String → Nat → Resp) :
    List String → String → List Event × Option String × String
  | [], lastErr => ([], none, lastErr)
  | c :: rest, lastErr =>
    let res := runAttempts provider c 0 attemptCap lastErr
    match res.2.1 with
    | some _ => res
    | none =>
      let tail := runCandidates provider rest res.2.2
      (res.1 ++ tail.1, tail.2)

/-- The generate handler's response as a function of the candidate list: the
first successful content is extracted and returned with status 200; when
every candidate is exhausted, status 502 with
`details: lastErrorText || 'No candidate models succeeded'`. -/
def generateRun (provider : String → Nat → Resp) (preferred : List String) : HttpOut :=
  let run := runCandidates provider preferred ""
  match run.2.1 with
  | some content => okResponse content
  | none =>
    ⟨502, .upstreamError (if run.2.2 = "" then "No candidate models succeeded" else run.2.2)⟩

/-- One step of the dedup-push loop
`for (const m of MODELS) if (!preferred.includes(m)) preferred.push(m)`. -/
def pushUnique (acc : List String) (x : String) : List String :=
  if x ∈ acc then acc else acc ++ [x]

/-- The whole dedup-push loop over a model list, from a starting list. -/
def dedupAppend (base ms : List String) : List String :=
  ms.foldl pushUnique base

namespace Server

/-- The fixed preference list `MODELS` of `server/index.js` (lines 62–66). -/
def MODELS : List String :=
  ["deepseek/deepseek-chat-v3-0324:free",
   "meta-llama/llama-4-maverick:free",
   "deepseek/deepseek-r1:free"]

/-- The candidate list built by `server/index.js` lines 179–183: the
user-requested model when truthy (modelled as `model ≠ ""`), then `MODELS`
deduplicated against what is already present. -/
def buildPreferred (model : String) : List String :=
  dedupAppend (if model = "" then [] else [model]) MODELS

/-- The whole `/api/roadmap` fallback run of the express server, for a
request-body model string (`""` for absent). -/
def generate (provider : String → Nat → Resp) (model : String) : HttpOut :=
  generateRun provider (buildPreferred model)

end Server

namespace ApiGen

/-- The fixed preference list `MODELS` of `api/_common.js` (lines 4–9). -/
def MODELS : List String :=
  ["deepseek/deepseek-chat-v3-0324:free",
   "meta-llama/llama-4-maverick:free",
   "deepseek/deepseek-r1:free",
   "qwen/qwen3-235b-a22b:free"]

/-- `preferredRaw` of the serverless generate handler (`api/generate`
lines 30–32): requested model first, then `MODELS` deduplicated. -/
def preferredRaw (model : String) : List String :=
  dedupAppend (if model = "" then [] else [model]) MODELS

/-- `preferred` of the serverless generate handler (lines 33–34): the raw
list restricted to the fetched availability list when that list is nonempty,
with a fixed fallback pushed when the restriction removes everything. -/
def preferredOf (model : String) (available : List String) : List String :=
  let preferred := (preferredRaw model).filter fun m =>
    available.isEmpty || available.contains m
  if preferred.isEmpty then ["deepseek/deepseek-r1:free"] else preferred

/-- The serverless `/api/generate` fallback run, given the request model and
the availability list fetched from the provider. -/
def generate (provider : String → Nat → Resp) (model : String)
    (available : List String) : HttpOut :=
  generateRun provider (preferredOf model available)

/-- The `weeks` value of the serverless generate handler (`api/generate`
lines 8–10), interpolated into the user prompt as the timeframe in weeks.
An argument is `some x` when `Number.isFinite(Number(...))` holds of the
request field, with `x` the numeric value (JavaScript doubles modelled as
rationals); `Math.max`/`Math.min` clamp into `[1, 52]`. -/
def computeWeeks (timeframeWeeks timeframeMonths : Option Rat) : Rat :=
  match timeframeWeeks with
  | some w => max 1 (min 52 w)
  | none =>
    match timeframeMonths with
    | some m => max 1 (min 52 (m * 4))
    | none => 12

end ApiGen

/-! ### The flat-file roadmap store

The store state is the decoded JSON array of saved records.  `Date.now()`,
`Math.random()`'s base-36 suffix and `new Date().toISOString()` are inputs
of the model. -/

/-- A record of the `roadmaps.json` array. -/
structure StoredRoadmap where
  id : String
  roadmap : JValue
  metadata : JValue
  createdAt : String
  updatedAt : String

/-- JavaScript `if (v)` on an optional JSON value (absent is falsy). -/
def jsTruthyOpt : Option JValue → Bool
  | some v => jsTruthy v
  | none => false

/-- JavaScript `v || d` on an optional JSON value. -/
def jsOr (v : Option JValue) (d : JValue) : JValue :=
  match v with
  | some x => if jsTruthy x then x else d
  | none => d

/-- The save handler (`server/index.js` lines 215–239 and the serverless
save handler lines 33–61): reject a falsy `roadmap` with 400; otherwise
append one record with id `Date.now().toString() + <random suffix>`,
the given roadmap, `metadata || {}` and both timestamps, write the array
back, and answer 200 with the new id.  Returns the stored array after the
request, the status, and the new id (when created). -/
def saveRoadmapHandler (store : List StoredRoadmap)
    (roadmap metadata : Option JValue) (nowMs : Nat) (randSuffix nowIso : String) :
    List StoredRoadmap × Nat × Option String :=
  match roadmap with
  | none => (store, 400, none)
  | some r =>
    if jsTruthy r = false then (store, 400, none)
    else
      let newRecord : StoredRoadmap :=
        ⟨toString nowMs ++ randSuffix, r, jsOr metadata (.obj []), nowIso, nowIso⟩
      (store ++ [newRecord], 200, some newRecord.id)

/-- The get-one handler (`server/index.js` lines 263–278; the serverless one
behaves identically after its missing-id guard): `roadmaps.find(r => r.id
=== id)`, 404 when absent. -/
def getRoadmapHandler (store : List StoredRoadmap) (id : String) :
    Nat × Option StoredRoadmap :=
  match store.find? (fun r => r.id = id) with
  | some r => (200, some r)
  | none => (404, none)

/-- The delete handler (`server/index.js` lines 281–297; the serverless one
behaves identically after its missing-id guard): filter out every record
with the id; when nothing was removed answer 404 without writing, else write
the filtered array and answer 200.  Returns the stored array after the
request, the status, and whether a write happened. -/
def deleteRoadmapHandler (store : List StoredRoadmap) (id : String) :
    List StoredRoadmap × Nat × Bool :=
  let filtered := store.filter fun r => r.id ≠ id
  if filtered.length = store.length then (store, 404, false)
  else (filtered, 200, true)

/-- Outcome of reading the storage file. -/
inductive FsRead where
  | found (contents : String)
  | readErr (code : String)

/-- An error propagated out of `loadRoadmaps`. -/
inductive LoadErr where
  | parse
  | fs (code : String)
deriving DecidableEq

/-- `loadRoadmaps` (`server/index.js` lines 35–45, serverless storage
lines 15–26): read and `JSON.parse` the file; in the catch block, a read
error with code `ENOENT` yields `[]` and anything else — including the
`SyntaxError` of a failed parse, which carries no `ENOENT` code — is
rethrown. -/
def loadRoadmaps : FsRead → Except LoadErr JValue
  | .found s =>
    match jsonParse s with
    | some v => .ok v
    | none => .error .parse
  | .readErr code =>
    if code = "ENOENT" then .ok (.arr []) else .error (.fs code)

/-! ### Trace observations and concrete witness data -/

/-- Attempt indices of the provider calls made for candidate `c`, in trace
order. -/
def callAttemptsOf (c : String) (evs : List Event) : List Nat :=
  evs.filterMap fun ev =>
    match ev with
    | .call m i _ => if m = c then some i else none
    | _ => none

/-- Was the event a provider call that received an OK response? -/
def isOkCall : Event → Bool
  | .call _ _ (.ok _) => true
  | _ => false

/-- The error body texts recorded by the failed calls of a trace, in order
(each failed call overwrites `lastErrorText`, so the final value is the last
entry). -/
def errBodies (evs : List Event) : List String :=
  evs.filterMap fun ev =>
    match ev with
    | .call _ _ (.err e) => some e.body
    | _ => none

/-- A concrete stored record used by witnesses. -/
def recA : StoredRoadmap :=
  ⟨"a", .obj [], .obj [], "2026-01-01T00:00:00.000Z", "2026-01-01T00:00:00.000Z"⟩

/-- A concrete one-record store used by witnesses. -/
def demoStore : List StoredRoadmap := [recA]

/-- Counterexample input for claim C2: a ` ```json ` fence whose interior
parses to the falsy JSON value `0`. -/
def c2cexInput : String := "```json\n0\n```"

/-- A provider that always answers 429. -/
def prov429 : String → Nat → Resp := fun _ _ => .err ⟨429, "rate limited"⟩

/-- A provider that always fails with status 500 and body `"boom"`. -/
def provBoom : String → Nat → Resp := fun _ _ => .err ⟨500, "boom"⟩

/-- A provider that always succeeds with content `"hello"`. -/
def provOk : String → Nat → Resp := fun _ _ => .ok "hello"

/-! ### Theorems -/

/-- Any clamp `max 1 (min 52 x)` lands in `[1, 52]`. -/
theorem clamp_mem_range (x : Rat) : 1 ≤ max 1 (min 52 x) ∧ max 1 (min 52 x) ≤ 52 :=
  ⟨le_max_left _ _, max_le (by norm_num) (min_le_left _ _)⟩

/-- C9: the timeframe-in-weeks value embedded in the serverless generate
prompt always lies in `[1, 52]`: a finite numeric `timeframeWeeks` is clamped
to that interval; otherwise a finite numeric `timeframeMonths` times 4 is
clamped to it; otherwise the value is 12. -/
theorem c9_prompt_weeks_clamped (tw tm : Option Rat) :
    1 ≤ ApiGen.computeWeeks tw tm ∧ ApiGen.computeWeeks tw tm ≤ 52 ∧
    (∀ w, tw = some w → ApiGen.computeWeeks tw tm = max 1 (min 52 w)) ∧
    (tw = none → ∀ m, tm = some m → ApiGen.computeWeeks tw tm = max 1 (min 52 (m * 4))) ∧
    (tw = none → tm = none → ApiGen.computeWeeks tw tm = 12) := by
  obtain _ | w := tw
  · obtain _ | m := tm
    · exact ⟨by norm_num [ApiGen.computeWeeks], by norm_num [ApiGen.computeWeeks],
        by simp, by simp, fun _ _ => rfl⟩
    · refine ⟨(clamp_mem_range (m * 4)).1, (clamp_mem_range (m * 4)).2, by simp, ?_, by simp⟩
      intro _ m' hm'
      obtain rfl : m = m' := by injection hm'
      rfl
  · refine ⟨(clamp_mem_range w).1, (clamp_mem_range w).2, ?_, by simp, by simp⟩
    intro w' hw'
    obtain rfl : w = w' := by injection hw'
    rfl

/-- Witness for C9 at the concrete inputs `timeframeWeeks = 100` (clamped)
and `timeframeWeeks` absent, `timeframeMonths` absent (default 12). -/
theorem c9_prompt_weeks_clamped_witness :
    ApiGen.computeWeeks (some 100) none = max 1 (min 52 100) ∧
    1 ≤ ApiGen.computeWeeks (some 100) none ∧
    ApiGen.computeWeeks (some 100) none ≤ 52 ∧
    ApiGen.computeWeeks none none = 12 :=
  ⟨(c9_prompt_weeks_clamped (some 100) none).2.2.1 100 rfl,
   (c9_prompt_weeks_clamped (some 100) none).1,
   (c9_prompt_weeks_clamped (some 100) none).2.1,
   (c9_prompt_weeks_clamped none none).2.2.2.2 rfl rfl⟩

/-- C10: `loadRoadmaps` turns a missing storage file (ENOENT) into the empty
array — exactly the result of reading a file holding `[]` — and propagates
every other read error and every parse error. -/
theorem c10_load_fresh_store (s code : String) :
    loadRoadmaps (.readErr "ENOENT") = .ok (.arr []) ∧
    loadRoadmaps (.readErr "ENOENT") = loadRoadmaps (.found "[]") ∧
    (code ≠ "ENOENT" → loadRoadmaps (.readErr code) = .error (.fs code)) ∧
    (jsonParse s = none → loadRoadmaps (.found s) = .error .parse) := by
  refine ⟨rfl, rfl, fun hc => ?_, fun hs => ?_⟩
  · simp [loadRoadmaps, hc]
  · simp [loadRoadmaps, hs]

/-- Witness for C10 at the concrete error code `EACCES` and the concrete
unparsable contents `"not json"`. -/
theorem c10_load_fresh_store_witness :
    loadRoadmaps (.readErr "EACCES") = .error (.fs "EACCES") ∧
    loadRoadmaps (.found "not json") = .error .parse :=
  ⟨(c10_load_fresh_store "not json" "EACCES").2.2.1 (by decide),
   (c10_load_fresh_store "not json" "EACCES").2.2.2 rfl⟩

/-- C6: a successful save appends exactly one record — id the timestamp
string concatenated with the random suffix, carrying the given roadmap,
`metadata || {}` and both timestamps — to the stored array read before the
write, and answers 200 with the new record's id. -/
theorem c6_save_appends_one (store : List StoredRoadmap) (rv : JValue)
    (md : Option JValue) (nowMs : Nat) (suffix iso : String)
    (h : jsTruthy rv = true) :
    saveRoadmapHandler store (some rv) md nowMs suffix iso =
      (store ++ [⟨toString nowMs ++ suffix, rv, jsOr md (.obj []), iso, iso⟩],
       200, some (toString nowMs ++ suffix)) := by
  simp [saveRoadmapHandler, h]

/-- Witness for C6 at a concrete store, roadmap, timestamp and suffix. -/
theorem c6_save_appends_one_witness :
    saveRoadmapHandler demoStore (some (.obj [])) none 1700000000000 "k2j3h4g5f" "t1" =
      (demoStore ++ [⟨toString 1700000000000 ++ "k2j3h4g5f", .obj [], jsOr none (.obj []),
        "t1", "t1"⟩], 200, some (toString 1700000000000 ++ "k2j3h4g5f")) :=
  c6_save_appends_one demoStore (.obj []) none 1700000000000 "k2j3h4g5f" "t1" rfl

/-- C7: a GET of a single roadmap answers 404 exactly when no stored record
has the requested id, and otherwise 200 with a stored record bearing that
id; a DELETE answers 404 exactly when no stored record has the id, and
otherwise removes every record with that id and answers success. -/
theorem c7_get_delete_by_id (store : List StoredRoadmap) (id : String) :
    ((getRoadmapHandler store id).1 = 404 ↔ ∀ r ∈ store, r.id ≠ id) ∧
    ((∃ r ∈ store, r.id = id) →
      ∃ rec, getRoadmapHandler store id = (200, some rec) ∧ rec ∈ store ∧ rec.id = id) ∧
    ((deleteRoadmapHandler store id).2.1 = 404 ↔ ∀ r ∈ store, r.id ≠ id) ∧
    ((∃ r ∈ store, r.id = id) →
      deleteRoadmapHandler store id = (store.filter fun r => r.id ≠ id, 200, true)) := by
  have hnone : (store.find? fun r => decide (r.id = id)) = none ↔ ∀ r ∈ store, r.id ≠ id := by
    rw [List.find?_eq_none]
    simp
  have hlen : (store.filter fun r => r.id ≠ id).length = store.length ↔
      ∀ r ∈ store, r.id ≠ id := by
    constructor
    · intro hl r hr hid
      have hlt : (store.filter fun r => decide (r.id ≠ id)).length < store.length :=
        List.length_filter_lt_length_iff_exists.mpr ⟨r, hr, by simp [hid]⟩
      omega
    · intro hall
      rw [List.filter_eq_self.mpr fun a ha => by simpa using hall a ha]
  refine ⟨?_, ?_, ?_, ?_⟩
  · cases hf : store.find? fun r => decide (r.id = id) with
    | none =>
      simp only [getRoadmapHandler, hf]
      simpa using hnone.mp hf
    | some rec =>
      have hmem := List.mem_of_find?_eq_some hf
      have hid : rec.id = id := by simpa using List.find?_some hf
      simp only [getRoadmapHandler, hf]
      constructor
      · intro h; simp at h
      · intro hall; exact absurd hid (hall rec hmem)
  · intro ⟨r, hr, hid⟩
    cases hf : store.find? fun r => decide (r.id = id) with
    | none => exact absurd hid (hnone.mp hf r hr)
    | some rec =>
      exact ⟨rec, by simp [getRoadmapHandler, hf], List.mem_of_find?_eq_some hf,
        by simpa using List.find?_some hf⟩
  · by_cases hl : (store.filter fun r => r.id ≠ id).length = store.length
    · simp only [deleteRoadmapHandler]
      rw [if_pos hl]
      simpa using hlen.mp hl
    · simp only [deleteRoadmapHandler]
      rw [if_neg hl]
      constructor
      · intro h; simp at h
      · intro hall; exact absurd (hlen.mpr hall) hl
  · rintro ⟨r, hr, hid⟩
    have hne : ¬ (store.filter fun x => x.id ≠ id).length = store.length :=
      fun hl => hlen.mp hl r hr hid
    simp only [deleteRoadmapHandler]
    rw [if_neg hne]

/-- Witness for C7 at the concrete one-record store and its id `"a"`. -/
theorem c7_get_delete_by_id_witness :
    (∃ rec, getRoadmapHandler demoStore "a" = (200, some rec) ∧
      rec ∈ demoStore ∧ rec.id = "a") ∧
    deleteRoadmapHandler demoStore "a" = (demoStore.filter fun r => r.id ≠ "a", 200, true) :=
  ⟨(c7_get_delete_by_id demoStore "a").2.1 ⟨recA, List.mem_singleton.mpr rfl, rfl⟩,
   (c7_get_delete_by_id demoStore "a").2.2.2 ⟨recA, List.mem_singleton.mpr rfl, rfl⟩⟩

/-- C8: a DELETE leaves the records whose id differs from the requested one
untouched and in their original order, and when no record matches it
performs no write and the stored array is exactly what it was. -/
theorem c8_delete_frame (store : List StoredRoadmap) (id : String) :
    ((deleteRoadmapHandler store id).1.filter fun r => r.id ≠ id)
      = store.filter (fun r => r.id ≠ id) ∧
    ((∀ r ∈ store, r.id ≠ id) → deleteRoadmapHandler store id = (store, 404, false)) := by
  have hall_imp : (∀ r ∈ store, r.id ≠ id) →
      (store.filter fun r => r.id ≠ id).length = store.length := by
    intro hall
    rw [List.filter_eq_self.mpr fun a ha => by simpa using hall a ha]
  constructor
  · by_cases hl : (store.filter fun r => r.id ≠ id).length = store.length
    · simp only [deleteRoadmapHandler]
      rw [if_pos hl]
    · simp only [deleteRoadmapHandler]
      rw [if_neg hl]
      simp [List.filter_filter]
  · intro hall
    simp only [deleteRoadmapHandler]
    rw [if_pos (hall_imp hall)]

/-- Witness for C8 at the concrete one-record store and the absent id
`"zzz"` (the 404 case: no write, store unchanged). -/
theorem c8_delete_frame_witness :
    ((deleteRoadmapHandler demoStore "zzz").1.filter fun r => r.id ≠ "zzz")
      = demoStore.filter (fun r => r.id ≠ "zzz") ∧
    deleteRoadmapHandler demoStore "zzz" = (demoStore, 404, false) :=
  ⟨(c8_delete_frame demoStore "zzz").1,
   (c8_delete_frame demoStore "zzz").2 (by decide)⟩

/-- The dedup-push loop of the express server evaluates to requested-first
followed by `MODELS` with the requested model filtered out. -/
theorem server_buildPreferred_eq (m : String) :
    Server.buildPreferred m =
      if m = "" then Server.MODELS else m :: Server.MODELS.filter fun x => x ≠ m := by
  by_cases hm : m = ""
  · subst hm
    rfl
  · rw [if_neg hm]
    unfold Server.buildPreferred dedupAppend Server.MODELS
    by_cases h1 : "deepseek/deepseek-chat-v3-0324:free" = m <;>
      by_cases h2 : "meta-llama/llama-4-maverick:free" = m <;>
      by_cases h3 : "deepseek/deepseek-r1:free" = m <;>
      simp_all [pushUnique, List.filter]

/-- The dedup-push loop of the serverless handler evaluates to
requested-first followed by its `MODELS` with the requested model filtered
out. -/
theorem apiGen_preferredRaw_eq (m : String) :
    ApiGen.preferredRaw m =
      if m = "" then ApiGen.MODELS else m :: ApiGen.MODELS.filter fun x => x ≠ m := by
  by_cases hm : m = ""
  · subst hm
    rfl
  · rw [if_neg hm]
    unfold ApiGen.preferredRaw dedupAppend ApiGen.MODELS
    by_cases h1 : "deepseek/deepseek-chat-v3-0324:free" = m <;>
      by_cases h2 : "meta-llama/llama-4-maverick:free" = m <;>
      by_cases h3 : "deepseek/deepseek-r1:free" = m <;>
      by_cases h4 : "qwen/qwen3-235b-a22b:free" = m <;>
      simp_all [pushUnique, List.filter]

/-- C1 (amended): in the express server the candidate sequence is exactly
the user-requested model (when supplied and nonempty) followed by `MODELS`
in order with duplicates of earlier entries removed, and is never empty; in
the serverless handler the same deduplicated sequence is further restricted
to the fetched availability list when that list is nonempty, with the single
fallback `deepseek/deepseek-r1:free` substituted when the restriction
removes every candidate, and is likewise never empty. -/
theorem c1_candidate_order_amended (m : String) (avail : List String) :
    Server.buildPreferred m =
      (if m = "" then Server.MODELS else m :: Server.MODELS.filter fun x => x ≠ m) ∧
    Server.buildPreferred m ≠ [] ∧
    ApiGen.preferredRaw m =
      (if m = "" then ApiGen.MODELS else m :: ApiGen.MODELS.filter fun x => x ≠ m) ∧
    ApiGen.preferredOf m avail =
      (let kept := (if m = "" then ApiGen.MODELS
          else m :: ApiGen.MODELS.filter fun x => x ≠ m).filter fun x =>
         avail.isEmpty || avail.contains x;
       if kept.isEmpty then ["deepseek/deepseek-r1:free"] else kept) ∧
    ApiGen.preferredOf m avail ≠ [] := by
  refine ⟨server_buildPreferred_eq m, ?_, apiGen_preferredRaw_eq m, ?_, ?_⟩
  · rw [server_buildPreferred_eq m]
    by_cases hm : m = ""
    · rw [if_pos hm]
      decide
    · rw [if_neg hm]
      simp
  · simp only [ApiGen.preferredOf, apiGen_preferredRaw_eq m]
  · simp only [ApiGen.preferredOf]
    split
    · simp
    · next h => simpa [List.isEmpty_iff] using h

/-- Counterexample to C1 as stated: in the serverless handler, a request
with model `"anymod"` while the fetched availability list is
`["other/model"]` is attempted against `["deepseek/deepseek-r1:free"]`
alone — not against the requested model followed by the `MODELS` list. -/
theorem c1_candidate_order_counterexample :
    ApiGen.preferredOf "anymod" ["other/model"] = ["deepseek/deepseek-r1:free"] ∧
    ApiGen.preferredOf "anymod" ["other/model"] ≠ "anymod" :: ApiGen.MODELS := by
  constructor
  · rfl
  · decide

/-- C2 (amended): a successful provider content string is answered with
status 200 and a body given by this chain: (1) if the content parses as
JSON, the parsed value; (2) otherwise the first ` ```json ` fence (or,
failing that, the first generic fence) is selected and, when its captured
interior parses as JSON, that value becomes the candidate; (3) otherwise the
first-`{`-to-last-`}` substring parse becomes the candidate; the candidate
is returned only when it is JavaScript-truthy, and in every remaining case
the body is `{ raw: content }`. -/
theorem c2_extraction_chain (c : String) :
    okResponse c = ⟨200, claimAmendedExtract c⟩ := by
  have htry : tryExtractJson c =
      (match fenceCapture c.data with
       | some interior =>
         if interior.isEmpty then braceCandidate c.data
         else
           match jsonParse (String.mk interior) with
           | some v => some v
           | none => braceCandidate c.data
       | none => braceCandidate c.data) := rfl
  unfold okResponse contentBody claimAmendedExtract
  rw [htry]
  cases hp : jsonParse c with
  | some v => rfl
  | none =>
    cases hf : fenceCapture c.data with
    | none => rfl
    | some interior =>
      by_cases he : interior.isEmpty
      · dsimp only
        rw [if_pos he]
        have hnil : interior = [] := by simpa [List.isEmpty_iff] using he
        subst hnil
        have hpe : jsonParse (String.mk []) = none := rfl
        rw [hpe]
      · dsimp only
        rw [if_neg he]

/-- Counterexample to C2 as stated: for the content ` ```json 0 ``` ` the
fence interior parses to the JSON value `0`, which the claim says is
returned; but `0` is falsy, so the handler answers `{ raw: content }`
instead. -/
theorem c2_extraction_chain_counterexample :
    contentBody c2cexInput = JBody.raw c2cexInput ∧
    claimedExtract c2cexInput = JBody.json (JValue.num ⟨0, 0⟩) ∧
    JBody.raw c2cexInput ≠ JBody.json (JValue.num ⟨0, 0⟩) :=
  ⟨rfl, rfl, fun h => JBody.noConfusion h⟩

/-- Trace shape of the per-candidate attempt loop: from attempt `a` with `r`
iterations left, some number `k ≤ r` of consecutive attempts `a, a + 1, ...`
happen, each preceded by its `RETRY_DELAYS` backoff wait except attempt 0. -/
theorem runAttempts_trace_shape (provider : String → Nat → Resp) (c : String) :
    ∀ (r a : Nat) (le : String),
      ∃ k, k ≤ r ∧ (runAttempts provider c a r le).1 =
        ((List.range' a k).map fun i =>
          (if 0 < i then [Event.wait (RETRY_DELAYS.getD i 0)] else [])
            ++ [Event.call c i (provider c i)]).flatten := by
  intro r
  induction r with
  | zero => exact fun a le => ⟨0, le_rfl, rfl⟩
  | succ r ih =>
    intro a le
    cases hp : provider c a with
    | ok content =>
      refine ⟨1, by omega, ?_⟩
      simp [runAttempts, hp, List.range'_one]
    | err e =>
      by_cases hb : e.status = 429 ∨ e.status = 404
      · refine ⟨1, by omega, ?_⟩
        simp [runAttempts, hp, hb, List.range'_one]
      · obtain ⟨k, hk, htr⟩ := ih (a + 1) e.body
        refine ⟨k + 1, by omega, ?_⟩
        simp [runAttempts, hp, hb, List.range'_succ, htr]

/-- C3: for every candidate the loop makes at most
`min(MAX_RETRIES, RETRY_DELAYS.length) = 3` attempts; attempt `i > 0` is
preceded by a wait of `RETRY_DELAYS[i]` milliseconds and the first attempt
by no wait at all, so `RETRY_DELAYS[0]` never occurs as a performed delay. -/
theorem c3_retry_schedule (provider : String → Nat → Resp) (c le : String) :
    min MAX_RETRIES RETRY_DELAYS.length = 3 ∧
    ∃ k, k ≤ min MAX_RETRIES RETRY_DELAYS.length ∧
      (runAttempts provider c 0 attemptCap le).1 =
        ((List.range k).map fun i =>
          (if 0 < i then [Event.wait (RETRY_DELAYS.getD i 0)] else [])
            ++ [Event.call c i (provider c i)]).flatten ∧
      Event.wait (RETRY_DELAYS.getD 0 0) ∉ (runAttempts provider c 0 attemptCap le).1 := by
  obtain ⟨k, hk, htr⟩ := runAttempts_trace_shape provider c attemptCap 0 le
  rw [← List.range_eq_range'] at htr
  have hk3 : k ≤ 3 := hk
  refine ⟨rfl, k, hk, htr, ?_⟩
  rw [htr]
  intro hmem
  simp only [List.mem_flatten, List.mem_map, List.mem_range] at hmem
  obtain ⟨l, ⟨i, hik, rfl⟩, hin⟩ := hmem
  have hik3 : i < 3 := lt_of_lt_of_le hik hk3
  rcases List.mem_append.mp hin with h | h
  · by_cases hi0 : 0 < i
    · rw [if_pos hi0, List.mem_singleton] at h
      have hd : RETRY_DELAYS.getD 0 0 = RETRY_DELAYS.getD i 0 := by injection h
      interval_cases i
      · exact absurd hd (by decide)
      · exact absurd hd (by decide)
    · rw [if_neg hi0] at h
      simp at h
  · rw [List.mem_singleton] at h
    exact Event.noConfusion h

/-- `callAttemptsOf` distributes over trace concatenation. -/
theorem callAttemptsOf_append (c : String) (l1 l2 : List Event) :
    callAttemptsOf c (l1 ++ l2) = callAttemptsOf c l1 ++ callAttemptsOf c l2 :=
  List.filterMap_append l1 l2 _

/-- The scheduled trace of attempts `a, ..., a + k - 1` records exactly
those attempt indices for the candidate. -/
theorem callAttemptsOf_schedule (provider : String → Nat → Resp) (c : String) :
    ∀ (k a : Nat),
      callAttemptsOf c (((List.range' a k).map fun i =>
        (if 0 < i then [Event.wait (RETRY_DELAYS.getD i 0)] else [])
          ++ [Event.call c i (provider c i)]).flatten) = List.range' a k := by
  intro k
  induction k with
  | zero => intro a; rfl
  | succ k ih =>
    intro a
    rw [List.range'_succ]
    simp only [List.map_cons, List.flatten_cons]
    rw [callAttemptsOf_append, ih (a + 1)]
    by_cases ha : 0 < a <;> simp [callAttemptsOf, ha]

/-- A 429 or 404 response ends the attempt loop at once, recording the
error body as the new `lastErrorText`. -/
theorem runAttempts_break (provider : String → Nat → Resp) (c : String)
    (a r : Nat) (le : String) (e : ErrInfo) (he : provider c a = .err e)
    (hb : e.status = 429 ∨ e.status = 404) :
    runAttempts provider c a (r + 1) le =
      ((if 0 < a then [Event.wait (RETRY_DELAYS.getD a 0)] else [])
        ++ [Event.call c a (.err e)], none, e.body) := by
  simp [runAttempts, he, hb]

/-- With at least one iteration left, the loop always calls the current
attempt index. -/
theorem attempt_called (provider : String → Nat → Resp) (c : String)
    (a r : Nat) (le : String) :
    a ∈ callAttemptsOf c (runAttempts provider c a (r + 1) le).1 := by
  cases hp : provider c a with
  | ok content =>
    by_cases ha : 0 < a <;> simp [runAttempts, hp, callAttemptsOf, ha]
  | err e =>
    by_cases hb : e.status = 429 ∨ e.status = 404 <;>
      by_cases ha : 0 < a <;>
      simp [runAttempts, hp, hb, callAttemptsOf, ha]

/-- When the first `k` attempts starting at `a` all fail with statuses other
than 429 and 404, the loop's trace is the scheduled trace of those attempts
followed by the run from attempt `a + k`, and the final outcome is that of
the latter run. -/
theorem runAttempts_skip (provider : String → Nat → Resp) (c : String) :
    ∀ (k a r : Nat) (le : String),
      (∀ j, a ≤ j → j < a + k →
        ∃ e, provider c j = Resp.err e ∧ ¬(e.status = 429 ∨ e.status = 404)) →
      k ≤ r →
      ∃ le', (runAttempts provider c a r le).1 =
          ((List.range' a k).map fun i =>
            (if 0 < i then [Event.wait (RETRY_DELAYS.getD i 0)] else [])
              ++ [Event.call c i (provider c i)]).flatten
            ++ (runAttempts provider c (a + k) (r - k) le').1 ∧
        (runAttempts provider c a r le).2 = (runAttempts provider c (a + k) (r - k) le').2 := by
  intro k
  induction k with
  | zero => intro a r le _ _; exact ⟨le, by simp, by simp⟩
  | succ k ih =>
    intro a r le hall hk
    obtain ⟨e, he, hne⟩ := hall a le_rfl (by omega)
    obtain ⟨r', rfl⟩ : ∃ r', r = r' + 1 := ⟨r - 1, by omega⟩
    obtain ⟨le', h1, h2⟩ := ih (a + 1) r' e.body
      (fun j hj1 hj2 => hall j (by omega) (by omega)) (by omega)
    have hidx : a + 1 + k = a + (k + 1) := by omega
    have hrem : r' - k = r' + 1 - (k + 1) := by omega
    rw [hidx, hrem] at h1 h2
    refine ⟨le', ?_, ?_⟩
    · rw [List.range'_succ]
      simp only [List.map_cons, List.flatten_cons]
      simp [runAttempts, he, hne, h1]
    · simp [runAttempts, he, hne, h2]

/-- C4: when attempt `a` of a candidate answers 429 or 404 (after earlier
attempts failed with other statuses), the loop makes no further attempt at
that candidate — its calls are exactly attempts `0..a` — and the run
continues with the next candidate, threading the captured error body;
whereas when attempt `a` fails with any other status and the attempt cap is
not yet reached, attempt `a + 1` at the same candidate is made. -/
theorem c4_status_break_vs_retry (provider : String → Nat → Resp) (c : String)
    (rest : List String) (le : String) (a : Nat) (e : ErrInfo)
    (ha : a < attemptCap)
    (hprev : ∀ j, j < a → ∃ e', provider c j = Resp.err e' ∧
      e'.status ≠ 429 ∧ e'.status ≠ 404)
    (hcur : provider c a = Resp.err e) :
    ((e.status = 429 ∨ e.status = 404) →
      callAttemptsOf c (runAttempts provider c 0 attemptCap le).1 = List.range (a + 1) ∧
      (runAttempts provider c 0 attemptCap le).2 = (none, e.body) ∧
      runCandidates provider (c :: rest) le =
        ((runAttempts provider c 0 attemptCap le).1 ++ (runCandidates provider rest e.body).1,
         (runCandidates provider rest e.body).2)) ∧
    ((e.status ≠ 429 ∧ e.status ≠ 404) → a + 1 < attemptCap →
      (a + 1) ∈ callAttemptsOf c (runAttempts provider c 0 attemptCap le).1) := by
  constructor
  · intro hb
    obtain ⟨le', h1, h2⟩ := runAttempts_skip provider c a 0 attemptCap le
      (fun j hj0 hja => by
        obtain ⟨e', he', hs1, hs2⟩ := hprev j (by omega)
        exact ⟨e', he', by tauto⟩)
      (by omega)
    rw [Nat.zero_add] at h1 h2
    obtain ⟨m, hm⟩ : ∃ m, attemptCap - a = m + 1 := ⟨attemptCap - a - 1, by omega⟩
    rw [hm, runAttempts_break provider c a m le' e hcur hb] at h1 h2
    have hcall : callAttemptsOf c (runAttempts provider c 0 attemptCap le).1
        = List.range (a + 1) := by
      rw [h1, callAttemptsOf_append, callAttemptsOf_schedule provider c a 0]
      have htail : callAttemptsOf c
          ((if 0 < a then [Event.wait (RETRY_DELAYS.getD a 0)] else [])
            ++ [Event.call c a (Resp.err e)]) = [a] := by
        by_cases h0 : 0 < a <;> simp [callAttemptsOf, h0]
      rw [htail, List.range_succ, List.range_eq_range']
    have hr1 : (runAttempts provider c 0 attemptCap le).2.1 = none := by rw [h2]
    have hr2 : (runAttempts provider c 0 attemptCap le).2.2 = e.body := by rw [h2]
    refine ⟨hcall, h2, ?_⟩
    simp [runCandidates, hr1, hr2]
  · intro hne hlt
    obtain ⟨le', h1, h2⟩ := runAttempts_skip provider c (a + 1) 0 attemptCap le
      (fun j hj0 hja => by
        rcases Nat.lt_succ_iff_lt_or_eq.mp (by omega : j < a + 1) with h | h
        · obtain ⟨e', he', hs1, hs2⟩ := hprev j h
          exact ⟨e', he', by tauto⟩
        · subst h
          exact ⟨e, hcur, by tauto⟩)
      (by omega)
    rw [Nat.zero_add] at h1
    obtain ⟨m, hm⟩ : ∃ m, attemptCap - (a + 1) = m + 1 := ⟨attemptCap - (a + 1) - 1, by omega⟩
    rw [hm] at h1
    rw [h1, callAttemptsOf_append]
    exact List.mem_append.mpr (Or.inr (attempt_called provider c (a + 1) m le'))

/-- Witness for C4 at the concrete always-429 provider: attempt 0 of the
single candidate `"m"` is the only call, the candidate's loop ends with the
captured body, and the run advances past the candidate. -/
theorem c4_status_break_vs_retry_witness :
    callAttemptsOf "m" (runAttempts prov429 "m" 0 attemptCap "").1 = List.range (0 + 1) ∧
    (runAttempts prov429 "m" 0 attemptCap "").2 = (none, "rate limited") ∧
    runCandidates prov429 ["m"] "" =
      ((runAttempts prov429 "m" 0 attemptCap "").1 ++ (runCandidates prov429 [] "rate limited").1,
       (runCandidates prov429 [] "rate limited").2) :=
  (c4_status_break_vs_retry prov429 "m" [] "" 0 ⟨429, "rate limited"⟩ (by decide)
    (fun j hj => absurd hj (Nat.not_lt_zero j)) rfl).1 (Or.inl rfl)

/-- `getLastD` over a concatenation threads the default through the first
part. -/
theorem getLastD_append_chain {α : Type} (l1 l2 : List α) (d : α) :
    (l1 ++ l2).getLastD d = l2.getLastD (l1.getLastD d) := by
  induction l1 generalizing d with
  | cons y ys ihy =>
    rw [List.cons_append, List.getLastD_cons]
    rw [ihy, List.getLastD_cons]
  | nil => rfl

/-- When the attempt loop succeeds, its trace ends at the successful call
and no earlier event is a successful call. -/
theorem runAttempts_ok_shape (provider : String → Nat → Resp) (c : String) :
    ∀ (r a : Nat) (le content : String),
      (runAttempts provider c a r le).2.1 = some content →
      ∃ pre i, (runAttempts provider c a r le).1 = pre ++ [Event.call c i (Resp.ok content)] ∧
        ∀ ev ∈ pre, isOkCall ev = false := by
  intro r
  induction r with
  | zero => intro a le content h; exact absurd h (by simp [runAttempts])
  | succ r ih =>
    intro a le content h
    cases hp : provider c a with
    | ok s =>
      have hs : s = content := by simpa [runAttempts, hp] using h
      subst hs
      refine ⟨(if 0 < a then [Event.wait (RETRY_DELAYS.getD a 0)] else []), a, ?_, ?_⟩
      · simp [runAttempts, hp]
      · intro ev hev
        by_cases h0 : 0 < a
        · rw [if_pos h0, List.mem_singleton] at hev
          subst hev; rfl
        · rw [if_neg h0] at hev
          simp at hev
    | err e =>
      by_cases hb : e.status = 429 ∨ e.status = 404
      · exact absurd h (by simp [runAttempts, hp, hb])
      · have htail : (runAttempts provider c (a + 1) r e.body).2.1 = some content := by
          simpa [runAttempts, hp, hb] using h
        obtain ⟨pre, i, htr, hpre⟩ := ih (a + 1) e.body content htail
        refine ⟨((if 0 < a then [Event.wait (RETRY_DELAYS.getD a 0)] else [])
          ++ [Event.call c a (Resp.err e)]) ++ pre, i, ?_, ?_⟩
        · simp [runAttempts, hp, hb, htr]
        · intro ev hev
          rcases List.mem_append.mp hev with h1 | h1
          · rcases List.mem_append.mp h1 with h2 | h2
            · by_cases h0 : 0 < a
              · rw [if_pos h0, List.mem_singleton] at h2
                subst h2; rfl
              · rw [if_neg h0] at h2
                simp at h2
            · rw [List.mem_singleton] at h2
              subst h2; rfl
          · exact hpre ev h1

/-- When the attempt loop exhausts its iterations, no event of its trace is
a successful call. -/
theorem runAttempts_none_shape (provider : String → Nat → Resp) (c : String) :
    ∀ (r a : Nat) (le : String),
      (runAttempts provider c a r le).2.1 = none →
      ∀ ev ∈ (runAttempts provider c a r le).1, isOkCall ev = false := by
  intro r
  induction r with
  | zero => intro a le _ ev hev; simp [runAttempts] at hev
  | succ r ih =>
    intro a le h ev hev
    cases hp : provider c a with
    | ok s => exact absurd h (by simp [runAttempts, hp])
    | err e =>
      by_cases hb : e.status = 429 ∨ e.status = 404
      · rw [show (runAttempts provider c a (r + 1) le).1 =
            (if 0 < a then [Event.wait (RETRY_DELAYS.getD a 0)] else [])
              ++ [Event.call c a (Resp.err e)] from by simp [runAttempts, hp, hb]] at hev
        rcases List.mem_append.mp hev with h1 | h1
        · by_cases h0 : 0 < a
          · rw [if_pos h0, List.mem_singleton] at h1
            subst h1; rfl
          · rw [if_neg h0] at h1
            simp at h1
        · rw [List.mem_singleton] at h1
          subst h1; rfl
      · have htail : (runAttempts provider c (a + 1) r e.body).2.1 = none := by
          simpa [runAttempts, hp, hb] using h
        rw [show (runAttempts provider c a (r + 1) le).1 =
            ((if 0 < a then [Event.wait (RETRY_DELAYS.getD a 0)] else [])
              ++ [Event.call c a (Resp.err e)])
              ++ (runAttempts provider c (a + 1) r e.body).1 from by
            simp [runAttempts, hp, hb]] at hev
        rcases List.mem_append.mp hev with h1 | h1
        · rcases List.mem_append.mp h1 with h2 | h2
          · by_cases h0 : 0 < a
            · rw [if_pos h0, List.mem_singleton] at h2
              subst h2; rfl
            · rw [if_neg h0] at h2
              simp at h2
          · rw [List.mem_singleton] at h2
            subst h2; rfl
        · exact ih (a + 1) e.body htail ev h1

/-- The attempt loop's final `lastErrorText` is the last error body of its
trace (or the incoming value when no call failed). -/
theorem runAttempts_lastErr (provider : String → Nat → Resp) (c : String) :
    ∀ (r a : Nat) (le : String),
      (runAttempts provider c a r le).2.2
        = (errBodies (runAttempts provider c a r le).1).getLastD le := by
  intro r
  induction r with
  | zero => intro a le; rfl
  | succ r ih =>
    intro a le
    cases hp : provider c a with
    | ok s =>
      by_cases h0 : 0 < a <;> simp [runAttempts, hp, errBodies, h0]
    | err e =>
      by_cases hb : e.status = 429 ∨ e.status = 404
      · by_cases h0 : 0 < a <;> simp [runAttempts, hp, hb, errBodies, h0]
      · have htr : (runAttempts provider c a (r + 1) le).1
            = ((if 0 < a then [Event.wait (RETRY_DELAYS.getD a 0)] else [])
              ++ [Event.call c a (Resp.err e)])
              ++ (runAttempts provider c (a + 1) r e.body).1 := by
          simp [runAttempts, hp, hb]
        have hres : (runAttempts provider c a (r + 1) le).2.2
            = (runAttempts provider c (a + 1) r e.body).2.2 := by
          simp [runAttempts, hp, hb]
        have hEB : errBodies ((runAttempts provider c a (r + 1) le).1)
            = e.body :: errBodies (runAttempts provider c (a + 1) r e.body).1 := by
          rw [htr]
          unfold errBodies
          rw [List.filterMap_append]
          by_cases h0 : 0 < a <;> simp [h0]
        rw [hres, ih (a + 1) e.body, hEB, List.getLastD_cons]

/-- The candidate loop's final `lastErrorText` is the last error body of its
whole trace (or the incoming value when no call failed). -/
theorem runCandidates_lastErr (provider : String → Nat → Resp) :
    ∀ (ps : List String) (le : String),
      (runCandidates provider ps le).2.2
        = (errBodies (runCandidates provider ps le).1).getLastD le := by
  intro ps
  induction ps with
  | nil => intro le; rfl
  | cons c rest ih =>
    intro le
    cases hr : (runAttempts provider c 0 attemptCap le).2.1 with
    | some s =>
      have h1 : (runCandidates provider (c :: rest) le)
          = runAttempts provider c 0 attemptCap le := by
        simp [runCandidates, hr]
      rw [h1, runAttempts_lastErr]
    | none =>
      have h1 : (runCandidates provider (c :: rest) le).1
          = (runAttempts provider c 0 attemptCap le).1
            ++ (runCandidates provider rest (runAttempts provider c 0 attemptCap le).2.2).1 := by
        simp [runCandidates, hr]
      have h2 : (runCandidates provider (c :: rest) le).2.2
          = (runCandidates provider rest (runAttempts provider c 0 attemptCap le).2.2).2.2 := by
        simp [runCandidates, hr]
      have hEB : errBodies ((runAttempts provider c 0 attemptCap le).1
          ++ (runCandidates provider rest (runAttempts provider c 0 attemptCap le).2.2).1)
          = errBodies (runAttempts provider c 0 attemptCap le).1
            ++ errBodies (runCandidates provider rest
                (runAttempts provider c 0 attemptCap le).2.2).1 := by
        unfold errBodies
        exact List.filterMap_append _ _ _
      rw [h1, h2, ih, hEB, getLastD_append_chain, ← runAttempts_lastErr]

/-- When the candidate loop succeeds, its whole trace ends at the successful
call and no earlier event is a successful call. -/
theorem runCandidates_ok_shape (provider : String → Nat → Resp) :
    ∀ (ps : List String) (le content : String),
      (runCandidates provider ps le).2.1 = some content →
      ∃ pre m i, (runCandidates provider ps le).1
          = pre ++ [Event.call m i (Resp.ok content)] ∧
        ∀ ev ∈ pre, isOkCall ev = false := by
  intro ps
  induction ps with
  | nil => intro le content h; exact absurd h (by simp [runCandidates])
  | cons c rest ih =>
    intro le content h
    cases hr : (runAttempts provider c 0 attemptCap le).2.1 with
    | some s =>
      have heq : (runCandidates provider (c :: rest) le)
          = runAttempts provider c 0 attemptCap le := by
        simp [runCandidates, hr]
      rw [heq] at h ⊢
      obtain ⟨pre, i, htr, hpre⟩ := runAttempts_ok_shape provider c attemptCap 0 le content h
      exact ⟨pre, c, i, htr, hpre⟩
    | none =>
      have h1 : (runCandidates provider (c :: rest) le).1
          = (runAttempts provider c 0 attemptCap le).1
            ++ (runCandidates provider rest
                (runAttempts provider c 0 attemptCap le).2.2).1 := by
        simp [runCandidates, hr]
      have h2 : (runCandidates provider (c :: rest) le).2.1
          = (runCandidates provider rest
              (runAttempts provider c 0 attemptCap le).2.2).2.1 := by
        simp [runCandidates, hr]
      rw [h2] at h
      obtain ⟨pre, m, i, htr, hpre⟩ :=
        ih (runAttempts provider c 0 attemptCap le).2.2 content h
      refine ⟨(runAttempts provider c 0 attemptCap le).1 ++ pre, m, i, ?_, ?_⟩
      · rw [h1, htr, List.append_assoc]
      · intro ev hev
        rcases List.mem_append.mp hev with h3 | h3
        · exact runAttempts_none_shape provider c attemptCap 0 le hr ev h3
        · exact hpre ev h3

/-- When every candidate is exhausted, no event of the whole trace is a
successful call. -/
theorem runCandidates_none_shape (provider : String → Nat → Resp) :
    ∀ (ps : List String) (le : String),
      (runCandidates provider ps le).2.1 = none →
      ∀ ev ∈ (runCandidates provider ps le).1, isOkCall ev = false := by
  intro ps
  induction ps with
  | nil => intro le _ ev hev; simp [runCandidates] at hev
  | cons c rest ih =>
    intro le h ev hev
    cases hr : (runAttempts provider c 0 attemptCap le).2.1 with
    | some s =>
      have heq : (runCandidates provider (c :: rest) le)
          = runAttempts provider c 0 attemptCap le := by
        simp [runCandidates, hr]
      rw [heq] at h
      exact absurd h (by rw [hr]; simp)
    | none =>
      have h1 : (runCandidates provider (c :: rest) le).1
          = (runAttempts provider c 0 attemptCap le).1
            ++ (runCandidates provider rest
                (runAttempts provider c 0 attemptCap le).2.2).1 := by
        simp [runCandidates, hr]
      have h2 : (runCandidates provider (c :: rest) le).2.1
          = (runCandidates provider rest
              (runAttempts provider c 0 attemptCap le).2.2).2.1 := by
        simp [runCandidates, hr]
      rw [h1] at hev
      rcases List.mem_append.mp hev with h3 | h3
      · exact runAttempts_none_shape provider c attemptCap 0 le hr ev h3
      · exact ih (runAttempts provider c 0 attemptCap le).2.2 (h2 ▸ h) ev h3

/-- C5: the generate handler returns status 200 with the extracted content
of the first OK provider response — the trace ends at that call, so no
further attempt follows it — and when every candidate exhausts its attempts
without an OK response it returns status 502 whose `details` is the error
body text of the last failed attempt when that text is nonempty, and
`'No candidate models succeeded'` otherwise (in particular when no nonempty
body was captured). -/
theorem c5_first_ok_or_502 (provider : String → Nat → Resp) (ps : List String) :
    (∀ content, (runCandidates provider ps "").2.1 = some content →
      generateRun provider ps = ⟨200, contentBody content⟩ ∧
      ∃ pre m i, (runCandidates provider ps "").1
          = pre ++ [Event.call m i (Resp.ok content)] ∧
        ∀ ev ∈ pre, isOkCall ev = false) ∧
    ((runCandidates provider ps "").2.1 = none →
      (∀ ev ∈ (runCandidates provider ps "").1, isOkCall ev = false) ∧
      generateRun provider ps =
        ⟨502, .upstreamError
          (if (errBodies (runCandidates provider ps "").1).getLastD "" = ""
           then "No candidate models succeeded"
           else (errBodies (runCandidates provider ps "").1).getLastD "")⟩) := by
  constructor
  · intro content h
    refine ⟨?_, runCandidates_ok_shape provider ps "" content h⟩
    simp only [generateRun]
    rw [h]
    rfl
  · intro h
    refine ⟨runCandidates_none_shape provider ps "" h, ?_⟩
    simp only [generateRun]
    rw [h, runCandidates_lastErr]

/-- Witness for C5: a provider that always succeeds yields the 200 response
with the extracted content, and a provider that always fails with body
`"boom"` yields the 502 response carrying that body as `details`. -/
theorem c5_first_ok_or_502_witness :
    generateRun provOk ["m"] = ⟨200, contentBody "hello"⟩ ∧
    generateRun provBoom ["m"] = ⟨502, .upstreamError "boom"⟩ := by
  constructor
  · exact ((c5_first_ok_or_502 provOk ["m"]).1 "hello" rfl).1
  · have h := ((c5_first_ok_or_502 provBoom ["m"]).2 rfl).2
    have hev : (errBodies (runCandidates provBoom ["m"] "").1).getLastD "" = "boom" := rfl
    rw [hev] at h
    rw [h, if_neg (by decide)]

/-- Witness for C1 (amended) at the concrete requested model `"my/model"`
with an empty and a nonempty availability list. -/
theorem c1_candidate_order_amended_witness :
    (Server.buildPreferred "my/model" =
      (if "my/model" = "" then Server.MODELS
       else "my/model" :: Server.MODELS.filter fun x => x ≠ "my/model")) ∧
    Server.buildPreferred "my/model" ≠ [] ∧
    ApiGen.preferredOf "my/model" ["deepseek/deepseek-r1:free"] ≠ [] :=
  ⟨(c1_candidate_order_amended "my/model" []).1,
   (c1_candidate_order_amended "my/model" []).2.1,
   (c1_candidate_order_amended "my/model" ["deepseek/deepseek-r1:free"]).2.2.2.2⟩

/-- Witness for C3 at the concrete always-failing provider: the cap
evaluates to 3 and the first retry delay never occurs as a wait. -/
theorem c3_retry_schedule_witness :
    min MAX_RETRIES RETRY_DELAYS.length = 3 ∧
    Event.wait (RETRY_DELAYS.getD 0 0) ∉ (runAttempts provBoom "m" 0 attemptCap "").1 := by
  obtain ⟨hmin, k, -, -, hni⟩ := c3_retry_schedule provBoom "m" ""
  exact ⟨hmin, hni⟩
